import Mathlib

/-!
Shallow embedding of the resilient-extraction pipeline of the
`AI_browser_agent` repository (`src/yahoo_finance_agent`), together with
proofs settling the specification claims about it.  Numeric values are
modelled as rationals; Python exceptions are modelled with `Except`; an
absent value is `Option.none`.
-/

namespace YahooFinanceAgent

/-! ### Value Normalizer (`utils/helpers.py`) -/

/-- ASCII whitespace, as matched by Python's `\s` and stripped by `str.strip()`. -/
def isPySpace (c : Char) : Bool :=
  c = ' ' || c = '\t' || c = '\n' || c = '\r' || c = '\x0b' || c = '\x0c'

/-- Characters deleted by `re.sub(r'[,$%+\s]', '', cleaned)` in `clean_numeric_value`. -/
def removedChar (c : Char) : Bool :=
  c = ',' || c = '$' || c = '%' || c = '+' || isPySpace c

/-- Python `str.strip()`: drop leading and trailing whitespace. -/
def pyStrip (cs : List Char) : List Char :=
  ((cs.dropWhile isPySpace).reverse.dropWhile isPySpace).reverse

/-- Numeric value of a big-endian list of decimal digit characters. -/
def digitsVal (l : List Char) : ℕ :=
  l.foldl (fun a c => 10 * a + (c.toNat - 48)) 0

/-- Decomposition of a decimal string accepted by Python `float()`:
sign, integer-part value, fraction-part value, number of fraction digits. -/
def pyFloatParts (cs : List Char) : Option (Bool × ℕ × ℕ × ℕ) :=
  let signed : Bool × List Char :=
    match cs with
    | c :: t => if c = '+' then (false, t) else if c = '-' then (true, t) else (false, cs)
    | [] => (false, cs)
  let neg := signed.1
  let rest := signed.2
  let ip := rest.takeWhile Char.isDigit
  let afterInt := rest.dropWhile Char.isDigit
  match afterInt with
  | [] => if ip.isEmpty then none else some (neg, digitsVal ip, 0, 0)
  | c :: fp =>
    if c = '.' then
      if fp.all Char.isDigit && (!ip.isEmpty || !fp.isEmpty) then
        some (neg, digitsVal ip, digitsVal fp, fp.length)
      else none
    else none

/-- Rational value of a decomposed decimal string. -/
def partsVal : Bool × ℕ × ℕ × ℕ → ℚ
  | (neg, i, f, k) => (if neg then -1 else 1) * ((i : ℚ) + (f : ℚ) / 10 ^ k)

/-- Model of Python `float()` on the decimal forms this repository feeds it:
an optional sign followed by digits with an optional fractional part
(`"12"`, `"12."`, `".5"`, `"-3.25"`).  Anything else is a conversion
failure (`ValueError`), modelled as `none`. -/
def pyFloat (cs : List Char) : Option ℚ :=
  (pyFloatParts cs).map partsVal

/-- Python `startswith` on a single character, over the char list of the string. -/
def pyStartsWith (cs : List Char) (c : Char) : Bool :=
  cs.head? = some c

/-- Python `endswith` on a single character. -/
def pyEndsWith (cs : List Char) (c : Char) : Bool :=
  cs.getLast? = some c

/-- The `cleaned` string built inside `clean_numeric_value`: `strip()`,
then `re.sub(r'[,$%+\s]','',·)`, then the parenthesized-negative rewrite
(`'-' + cleaned[1:-1]` when it starts with `(` and ends with `)`). -/
def cleanedOf (value : String) : List Char :=
  let cleaned := (pyStrip value.data).filter (fun c => !removedChar c)
  if pyStartsWith cleaned '(' && pyEndsWith cleaned ')' then
    '-' :: (cleaned.drop 1).dropLast
  else cleaned

/-- `clean_numeric_value` from `utils/helpers.py`: missing-token check
(`not value or value in ['N/A', '--', '']`), then the `cleaned` rewrite
above, then `float`, with the redundant `%`-replacement branch kept as in
the source. -/
def clean_numeric_value (value : String) : Option ℚ :=
  if value = "" ∨ value ∈ (["N/A", "--", ""] : List String) then none
  else if value.data.contains '%' then
    pyFloat ((cleanedOf value).filter (fun c => c != '%'))
  else
    pyFloat (cleanedOf value)

/-- `clean_numeric_value` on a possibly-`None` argument: `if not value` is
true for `None`, so `None` maps to absent. -/
def clean_numeric_value? (value : Option String) : Option ℚ :=
  match value with
  | none => none
  | some s => clean_numeric_value s

/-- The body of `clean_numeric_value` with the exception flow explicit:
`float` raising `ValueError` on a malformed string is an `Except.error`,
and the function's `except (ValueError, TypeError, AttributeError)` clause
catches it and returns `None`. -/
def clean_numeric_valueE (value : Option String) : Except Unit (Option ℚ) :=
  match value with
  | none => .ok none
  | some value =>
    if value = "" ∨ value ∈ (["N/A", "--", ""] : List String) then .ok none
    else
      let attempt : Except Unit ℚ :=
        if value.data.contains '%' then
          match pyFloat ((cleanedOf value).filter (fun c => c != '%')) with
          | some q => .ok q
          | none => .error ()
        else
          match pyFloat (cleanedOf value) with
          | some q => .ok q
          | none => .error ()
      match attempt with
      | .ok q => .ok (some q)
      | .error _ => .ok none

/-- Characters an already-clean float-as-string may contain:
digits, a minus sign, a decimal point. -/
def isCleanFloatChar (c : Char) : Bool :=
  c.isDigit || c = '-' || c = '.'

/-- Python `str.isdigit()` on the ASCII strings relevant here:
non-empty and consisting of digit characters only. -/
def pyIsDigit (s : String) : Bool :=
  !s.data.isEmpty && s.data.all Char.isDigit

/-! ### Field validation (`scrapers/intelligent_extractor.py`) -/

/-- `_validate_extracted_value`.  The Python expression
`numeric_value and lo <= numeric_value <= hi` evaluates to `None`, `0.0`
or a `bool`, and its caller uses it as a condition; the `Bool` returned
here is the truthiness of that value, so a candidate whose numeric value
is `0.0` comes out `false`. -/
def validate_extracted_value (field : String) (value : String) : Bool :=
  if value = "" ∨ value ∈ (["N/A", "--", ""] : List String) then false
  else if field ∈ (["current_price", "previous_close", "open_price"] : List String) then
    match clean_numeric_value value with
    | none => false
    | some q => if q = 0 then false else decide ((1 : ℚ)/100 ≤ q ∧ q ≤ 10000)
  else if field = "company_name" then
    decide (2 ≤ value.length ∧ value.length ≤ 100) && !pyIsDigit value
  else if field ∈ (["pe_ratio", "eps", "beta"] : List String) then
    match clean_numeric_value value with
    | none => false
    | some q => if q = 0 then false else decide ((-1000 : ℚ) ≤ q ∧ q ≤ 1000)
  else true

/-! ### Intelligent Extractor control flow (`extract_with_intelligence`)

The document and the DOM machinery are abstracted away: what matters to the
claims is the control flow over an arbitrary combination of strategy
outcomes.  A strategy application either raises (caught by the loop) or
returns an optional text; `css_selector_fallback` additionally records in
`_last_successful_selector` the selector that worked. -/

/-- Truthiness of an optional extracted text (`if result:`):
`None` and the empty string are falsy. -/
def truthyRes : Option String → Bool
  | none => false
  | some s => s != ""

/-- Behaviour of one strategy of the ordered strategy list on the current
document: its outcome, and the selector it stores in
`_last_successful_selector` when it succeeds (only the fallback-selector
strategy does; `none` means the attribute is left unchanged). -/
structure StratBehavior where
  outcome : Except Unit (Option String)
  selUpdate : Option String := none

/-- The extractor state relevant to one `(symbol, field)` cache key:
the `success_cache` entry for that key, and `_last_successful_selector`
if it was ever set. -/
structure ExtractorState where
  cache : Option String
  lastSel : Option String
deriving DecidableEq

/-- The strategy loop of `extract_with_intelligence`: try each strategy in
order; an exception is caught and the loop continues; a truthy result is
returned after `success_cache[cache_key] = self._last_successful_selector`
(executed only when `_last_successful_selector` exists). -/
def extractLoop (strats : List StratBehavior) (st : ExtractorState) :
    Option String × ExtractorState :=
  match strats with
  | [] => (none, st)
  | b :: rest =>
    match b.outcome with
    | .error _ => extractLoop rest st
    | .ok r =>
      if truthyRes r then
        let newLast := match b.selUpdate with
          | some s => some s
          | none => st.lastSel
        let newCache := match newLast with
          | some s => some s
          | none => st.cache
        (r, { cache := newCache, lastSel := newLast })
      else extractLoop rest st

/-- `extract_with_intelligence`: first re-apply the cached selector for the
`(symbol, field)` key via `_extract_with_selector` (modelled by `cached`);
a truthy result is returned directly, an exception evicts the cache entry
(`del self.success_cache[cache_key]`), and in either failure mode control
falls through to the strategy loop. -/
def extract_with_intelligence (cached : String → Except Unit (Option String))
    (strats : List StratBehavior) (st : ExtractorState) :
    Option String × ExtractorState :=
  match st.cache with
  | some sel =>
    match cached sel with
    | .ok r => if truthyRes r then (r, st) else extractLoop strats st
    | .error _ => extractLoop strats { st with cache := none }
  | none => extractLoop strats st

/-- The strategy loop with the exception flow explicit: the `try/except`
around each strategy catches every exception, so a raising strategy
continues the loop instead of propagating. -/
def extractLoopE (strats : List StratBehavior) (st : ExtractorState) :
    Except Unit (Option String × ExtractorState) :=
  match strats with
  | [] => .ok (none, st)
  | b :: rest =>
    match b.outcome with
    | .error _ => extractLoopE rest st
    | .ok r =>
      if truthyRes r then
        let newLast := match b.selUpdate with
          | some s => some s
          | none => st.lastSel
        let newCache := match newLast with
          | some s => some s
          | none => st.cache
        .ok (r, { cache := newCache, lastSel := newLast })
      else extractLoopE rest st

/-- `extract_with_intelligence` with the exception flow explicit. -/
def extract_with_intelligenceE (cached : String → Except Unit (Option String))
    (strats : List StratBehavior) (st : ExtractorState) :
    Except Unit (Option String × ExtractorState) :=
  match st.cache with
  | some sel =>
    match cached sel with
    | .ok r => if truthyRes r then .ok (r, st) else extractLoopE strats st
    | .error _ => extractLoopE strats { st with cache := none }
  | none => extractLoopE strats st

/-- The result the strategy loop produces: the outcome of the first
strategy whose application returns a truthy value. -/
def firstTruthy (strats : List StratBehavior) : Option String :=
  match strats with
  | [] => none
  | b :: rest =>
    match b.outcome with
    | .error _ => firstTruthy rest
    | .ok r => if truthyRes r then r else firstTruthy rest

/-! ### Error Classification & Retry Layer (`utils/error_handler.py`) -/

/-- Observable outcome of a `retry_with_backoff`-wrapped call: the returned
value or re-raised final exception, the number of times the wrapped
function was invoked, and the number of `ErrorInfo` entries recorded in the
error tracker. -/
structure RetryOutcome (E A : Type) where
  result : Except E A
  attempts : ℕ
  recorded : ℕ

/-- The loop `for attempt in range(max_retries + 1)` of `retry_with_backoff`,
parameterized by the attempt index and the number of retries still allowed:
a success returns immediately; a failure is recorded, then either the loop
continues (when `attempt < max_retries`) or the last exception is re-raised. -/
def retryAux {E A : Type} (f : ℕ → Except E A) (attempt : ℕ) :
    ℕ → RetryOutcome E A
  | 0 =>
    match f attempt with
    | .ok a => ⟨.ok a, 1, 0⟩
    | .error e => ⟨.error e, 1, 1⟩
  | n + 1 =>
    match f attempt with
    | .ok a => ⟨.ok a, 1, 0⟩
    | .error _ =>
      let o := retryAux f (attempt + 1) n
      ⟨o.result, o.attempts + 1, o.recorded + 1⟩

/-- `retry_with_backoff(max_retries)` applied to a wrapped function whose
attempt number `n` has outcome `f n`. -/
def retry_with_backoff {E A : Type} (maxRetries : ℕ) (f : ℕ → Except E A) :
    RetryOutcome E A :=
  retryAux f 0 maxRetries

/-! ### Data model and Scraper (`data/models.py`, `scrapers/yahoo_scraper.py`) -/

/-- `CompanyInfo` (the fields the claims touch). -/
structure CompanyInfo where
  symbol : String
  company_name : String
deriving DecidableEq

/-- `StockData` (the fields the claims touch); its `symbol` field is
subject to the pydantic validator below at construction. -/
structure StockData where
  symbol : String
  company_info : CompanyInfo
deriving DecidableEq

/-- Python `str.upper()` on the ASCII symbol strings used here. -/
def pyUpper (s : String) : String :=
  String.mk (s.data.map Char.toUpper)

/-- The pydantic validator `symbol_must_be_uppercase` on `StockData.symbol`:
`v.upper() if v else v` (the empty string is falsy and passes through). -/
def symbol_must_be_uppercase (v : String) : String :=
  if v = "" then v else pyUpper v

/-- `validate_symbol` from `utils/helpers.py`:
`re.match(r'^[A-Z]{1,5}$', symbol.upper())` on a non-empty symbol. -/
def validate_symbol (s : String) : Bool :=
  if s = "" then false
  else (1 ≤ s.length && s.length ≤ 5) &&
    (pyUpper s).data.all (fun c => 'A' ≤ c && c ≤ 'Z')

/-- `StockData` as assembled by `_scrape_with_browser` /
`_scrape_with_requests`: `CompanyInfo` is built by `_extract_company_info`
from the raw symbol argument, while the top-level `symbol` field passes
through the pydantic validator. -/
def build_stock_data (symbol companyName : String) : StockData :=
  { symbol := symbol_must_be_uppercase symbol
    company_info := { symbol := symbol, company_name := companyName } }

/-- `ScrapingResult` (timestamps and elapsed wall-clock time omitted). -/
structure ScrapingResult where
  success : Bool
  data : Option StockData
  error_message : Option String
deriving DecidableEq

/-- `_scrape_with_browser`: a fetch/navigation failure raises inside the
`try`, is caught by the internal `except Exception` (and again by
`handle_errors(reraise=False)`), yielding `None`; on success the field
groups are extracted from the document into a `StockData`. -/
def scrape_with_browser {Doc : Type} (fetch : Except Unit Doc)
    (extractAll : Doc → StockData) : Option StockData :=
  match fetch with
  | .error _ => none
  | .ok doc => some (extractAll doc)

/-- The body of `scrape_stock_data`: a truthy `StockData` gives a
successful result, `None` gives `success=False` with the message
`"No data extracted"`. -/
def scrape_stock_data_once {Doc : Type} (fetch : Except Unit Doc)
    (extractAll : Doc → StockData) : ScrapingResult :=
  match scrape_with_browser fetch extractAll with
  | some sd => ⟨true, some sd, none⟩
  | none => ⟨false, none, some "No data extracted"⟩

/-- One attempt of `scrape_stock_data` as seen by the `retry_with_backoff`
wrapper: the outer `try/except Exception` converts any exception into a
failed `ScrapingResult`, and the scraping paths absorb fetch failures
internally, so an attempt always returns normally. -/
def scrape_stock_data_attempt {Doc : Type} (fetch : Except Unit Doc)
    (extractAll : Doc → StockData) : Except Unit ScrapingResult :=
  .ok (scrape_stock_data_once fetch extractAll)

/-- `scrape_stock_data` at its public boundary:
`@retry_with_backoff(max_retries=...)` wrapping the body, where the
document fetched on attempt `n` is `fetchAt n`. -/
def scrape_stock_data {Doc : Type} (maxRetries : ℕ)
    (fetchAt : ℕ → Except Unit Doc) (extractAll : Doc → StockData) :
    RetryOutcome Unit ScrapingResult :=
  retry_with_backoff maxRetries
    (fun attempt => scrape_stock_data_attempt (fetchAt attempt) extractAll)

/-! ### Circuit breaker (`utils/error_handler.py`) -/

/-- The circuit state strings `"closed"`, `"open"`, `"half-open"`. -/
inductive CBState
  | closed
  | opened
  | halfOpen
deriving DecidableEq

/-- `CircuitBreaker` instance state; time is passed explicitly to `call`
(the value `datetime.now()` would produce). -/
structure CircuitBreaker where
  failure_threshold : ℕ
  recovery_timeout : ℚ
  failure_count : ℕ
  last_failure_time : Option ℚ
  state : CBState
deriving DecidableEq

/-- A fresh breaker: `failure_count = 0`, no failure yet, closed. -/
def CircuitBreaker.init (threshold : ℕ) (timeout : ℚ) : CircuitBreaker :=
  ⟨threshold, timeout, 0, none, .closed⟩

/-- `_should_attempt_reset`. -/
def CircuitBreaker.should_attempt_reset (cb : CircuitBreaker) (now : ℚ) : Bool :=
  match cb.last_failure_time with
  | none => true
  | some t => decide (cb.recovery_timeout ≤ now - t)

/-- `_on_success`. -/
def CircuitBreaker.on_success (cb : CircuitBreaker) : CircuitBreaker :=
  { cb with failure_count := 0, state := .closed }

/-- `_on_failure`. -/
def CircuitBreaker.on_failure (cb : CircuitBreaker) (now : ℚ) : CircuitBreaker :=
  let cb := { cb with failure_count := cb.failure_count + 1,
                      last_failure_time := some now }
  if cb.failure_threshold ≤ cb.failure_count then { cb with state := .opened }
  else cb

/-- The exception surfaced by `CircuitBreaker.call`: the synthetic
`Exception("Circuit breaker is open")`, or the wrapped call's re-raised
exception. -/
inductive CBError
  | circuitOpen
  | wrapped
deriving DecidableEq

/-- Observable outcome of one `CircuitBreaker.call`: result, new breaker
state, and whether the wrapped function was invoked at all. -/
structure CBCallResult (A : Type) where
  result : Except CBError A
  cb : CircuitBreaker
  invoked : Bool

/-- `CircuitBreaker.call` at time `now`, where the wrapped function's
outcome on this invocation would be `f`. -/
def CircuitBreaker.call {A : Type} (cb : CircuitBreaker) (now : ℚ)
    (f : Except Unit A) : CBCallResult A :=
  let proceed : CircuitBreaker → CBCallResult A := fun cb' =>
    match f with
    | .ok a => ⟨.ok a, cb'.on_success, true⟩
    | .error _ => ⟨.error .wrapped, cb'.on_failure now, true⟩
  match cb.state with
  | .opened =>
    if cb.should_attempt_reset now then proceed { cb with state := .halfOpen }
    else ⟨.error .circuitOpen, cb, false⟩
  | _ => proceed cb

/-- A sequence of calls whose wrapped function fails every time, at the
given times. -/
def CircuitBreaker.failSeq (cb : CircuitBreaker) (times : List ℚ) : CircuitBreaker :=
  times.foldl (fun c t => (c.call t (.error () : Except Unit Unit)).cb) cb

/-! ### Historical Analyzer (`data/processor.py`)

The close-price series (after `dropna`) is a `List ℚ`, oldest first. -/

/-- The last `n` elements of a series (the window of
`rolling(n)` at `iloc[-1]`). -/
def lastN (n : ℕ) (xs : List ℚ) : List ℚ :=
  xs.drop (xs.length - n)

/-- `rolling(window=w).mean().iloc[-1]`, guarded by `len(df) >= w`. -/
def sma_last (w : ℕ) (xs : List ℚ) : Option ℚ :=
  if w ≤ xs.length then some ((lastN w xs).sum / w) else none

/-- `ewm(span=span)`'s smoothing factor `alpha = 2 / (span + 1)`. -/
def ewmAlpha (span : ℕ) : ℚ :=
  2 / (span + 1)

/-- Weighted numerator of pandas `ewm(...).mean()` (adjust=True) over a
prefix of the series: `sum (1-alpha)^i * x_{t-i}`. -/
def ewmNum (α : ℚ) (l : List ℚ) : ℚ :=
  l.foldl (fun acc x => acc * (1 - α) + x) 0

/-- The matching denominator `sum (1-alpha)^i` over a window of size `n`. -/
def ewmDen (α : ℚ) (n : ℕ) : ℚ :=
  (List.range n).foldl (fun acc _ => acc * (1 - α) + 1) 0

/-- The exponentially-weighted mean at position `t`. -/
def ewmAt (α : ℚ) (xs : List ℚ) (t : ℕ) : ℚ :=
  ewmNum α (xs.take (t + 1)) / ewmDen α (t + 1)

/-- `series.ewm(span=span).mean()` as a series. -/
def ewm_mean (span : ℕ) (xs : List ℚ) : List ℚ :=
  (List.range xs.length).map (ewmAt (ewmAlpha span) xs)

/-- `macd_line = ema_12_series - ema_26_series` (pointwise). -/
def macd_line (xs : List ℚ) : List ℚ :=
  List.zipWith (· - ·) (ewm_mean 12 xs) (ewm_mean 26 xs)

/-- `signal_line = macd_line.ewm(span=9).mean()`. -/
def signal_line (xs : List ℚ) : List ℚ :=
  ewm_mean 9 (macd_line xs)

/-- `macd_line - signal_line` (pointwise), whose last element is
`indicators['macd_histogram']`. -/
def histogram_line (xs : List ℚ) : List ℚ :=
  List.zipWith (· - ·) (macd_line xs) (signal_line xs)

/-- `_calculate_rsi`: absent when `len(prices) < period + 1`; otherwise the
rolling means of gains and losses over the last `period` deltas, with the
IEEE corner cases of `gain/loss` made explicit (`loss = 0, gain > 0` gives
`rs = inf` hence RSI `100`; `0/0` gives NaN, modelled as absent). -/
def calculate_rsi (prices : List ℚ) (period : ℕ) : Option ℚ :=
  if prices.length < period + 1 then none
  else
    let deltas := List.zipWith (· - ·) prices.tail prices
    let gains := deltas.map (fun d => if 0 < d then d else 0)
    let losses := deltas.map (fun d => if d < 0 then -d else 0)
    let avgGain := (lastN period gains).sum / period
    let avgLoss := (lastN period losses).sum / period
    if avgLoss = 0 then
      if avgGain = 0 then none else some 100
    else some (100 - 100 / (1 + avgGain / avgLoss))

/-- Python truthiness of an optional float
(`if indicators['ema_12'] and indicators['ema_26']`):
`None` and `0.0` are falsy. -/
def truthyOptQ : Option ℚ → Bool
  | none => false
  | some q => q != 0

/-- The indicator fields of `calculate_technical_indicators` the claims
touch. -/
structure TechnicalIndicators where
  sma_20 : Option ℚ
  ema_12 : Option ℚ
  ema_26 : Option ℚ
  macd : Option ℚ
  macd_signal : Option ℚ
  macd_histogram : Option ℚ
  rsi : Option ℚ

/-- `indicators['ema_N'] = df['close'].ewm(span=N).mean().iloc[-1] if
len(df) >= N else None`. -/
def ema_last (span : ℕ) (xs : List ℚ) : Option ℚ :=
  if span ≤ xs.length then (ewm_mean span xs).getLast? else none

/-- The guard `if indicators['ema_12'] and indicators['ema_26']` deciding
whether the MACD trio is computed (Python truthiness, so an EMA of `0.0`
disables it). -/
def macd_guard (xs : List ℚ) : Bool :=
  truthyOptQ (ema_last 12 xs) && truthyOptQ (ema_last 26 xs)

/-- `calculate_technical_indicators` on the close series: SMAs and EMAs
guarded by series length, the MACD trio guarded by the truthiness of
`ema_12` and `ema_26`, and RSI(14). -/
def calculate_technical_indicators (close : List ℚ) : TechnicalIndicators :=
  { sma_20 := sma_last 20 close
    ema_12 := ema_last 12 close
    ema_26 := ema_last 26 close
    macd := if macd_guard close then (macd_line close).getLast? else none
    macd_signal := if macd_guard close then (signal_line close).getLast? else none
    macd_histogram := if macd_guard close then (histogram_line close).getLast? else none
    rsi := calculate_rsi close 14 }

/-! ### AI analyzer (`ai/analyzer.py`) -/

/-- `AnalysisResult` (timestamp omitted). -/
structure AnalysisResult where
  symbol : String
  analysis_type : String
  insights : List String
  recommendations : List String
  confidence_score : Option ℚ
deriving DecidableEq

/-- The `FinancialAnalyzer` state set up by `__init__`:
`self.api_key = api_key or settings.openai_api_key`, and
`self.enabled = False` iff the resulting key is falsy (empty). -/
structure FinancialAnalyzer where
  api_key : String
  enabled : Bool
deriving DecidableEq

/-- `FinancialAnalyzer.__init__` with argument `apiKeyArg` (or `None`) and
the settings value of `OPENAI_API_KEY` (default `""`). -/
def mkFinancialAnalyzer (apiKeyArg : Option String) (settingsKey : String) :
    FinancialAnalyzer :=
  let key := match apiKeyArg with
    | some k => if k = "" then settingsKey else k
    | none => settingsKey
  { api_key := key, enabled := key != "" }

/-- What the external AI service returns when contacted:
parsed insights, recommendations and confidence on success,
or the exception message on failure. -/
def analysisInsightsOfService (symbol : String)
    (service : Except String (List String × List String × Option ℚ)) :
    AnalysisResult :=
  match service with
  | .ok (ins, recs, conf) => ⟨symbol, "comprehensive", ins, recs, conf⟩
  | .error e => ⟨symbol, "error", ["Analysis failed: " ++ e], [], none⟩

/-- `analyze_stock_data`: when the analyzer is disabled it returns the
fixed `analysis_type="disabled"` result without touching the service;
otherwise the service call is made inside `try/except`, its failure
producing the `analysis_type="error"` result.  The `Bool` records whether
the external service was contacted. -/
def analyze_stock_data (fa : FinancialAnalyzer) (sd : StockData)
    (service : Except String (List String × List String × Option ℚ)) :
    AnalysisResult × Bool :=
  if fa.enabled = false then
    (⟨sd.symbol, "disabled",
      ["AI analysis is disabled - OpenAI API key not provided"], [], none⟩,
     false)
  else
    (analysisInsightsOfService sd.symbol service, true)

/-! ## Supporting lemmas -/

theorem clean_char_not_removed {c : Char} (h : isCleanFloatChar c = true) :
    removedChar c = false := by
  have h1 : c ≠ ',' := fun e => by cases e; exact absurd h (by decide)
  have h2 : c ≠ '$' := fun e => by cases e; exact absurd h (by decide)
  have h3 : c ≠ '%' := fun e => by cases e; exact absurd h (by decide)
  have h4 : c ≠ '+' := fun e => by cases e; exact absurd h (by decide)
  have h5 : c ≠ ' ' := fun e => by cases e; exact absurd h (by decide)
  have h6 : c ≠ '\t' := fun e => by cases e; exact absurd h (by decide)
  have h7 : c ≠ '\n' := fun e => by cases e; exact absurd h (by decide)
  have h8 : c ≠ '\r' := fun e => by cases e; exact absurd h (by decide)
  have h9 : c ≠ '\x0b' := fun e => by cases e; exact absurd h (by decide)
  have h10 : c ≠ '\x0c' := fun e => by cases e; exact absurd h (by decide)
  simp [removedChar, isPySpace, h1, h2, h3, h4, h5, h6, h7, h8, h9, h10]

theorem clean_char_not_space {c : Char} (h : isCleanFloatChar c = true) :
    isPySpace c = false := by
  have hr := clean_char_not_removed h
  cases hsp : isPySpace c
  · rfl
  · exfalso
    simp [removedChar, hsp] at hr

theorem dropWhile_space_eq_self {l : List Char}
    (h : ∀ c ∈ l, isPySpace c = false) : l.dropWhile isPySpace = l := by
  cases l with
  | nil => rfl
  | cons a t => simp [List.dropWhile_cons, h a (List.mem_cons_self a t)]

theorem pyStrip_eq_self {l : List Char} (h : ∀ c ∈ l, isPySpace c = false) :
    pyStrip l = l := by
  unfold pyStrip
  rw [dropWhile_space_eq_self h,
    dropWhile_space_eq_self (fun c hc => h c (List.mem_reverse.mp hc)),
    List.reverse_reverse]

theorem contains_percent_eq_false {l : List Char}
    (h : ∀ c ∈ l, isCleanFloatChar c = true) : l.contains '%' = false := by
  have hmem : '%' ∉ l := fun hm => absurd (h _ hm) (by decide)
  simpa using hmem

theorem startsWith_paren_eq_false {l : List Char}
    (h : ∀ c ∈ l, isCleanFloatChar c = true) : pyStartsWith l '(' = false := by
  cases l with
  | nil => rfl
  | cons a t =>
    have ha : a ≠ '(' := fun e => by
      cases e; exact absurd (h _ (List.mem_cons_self _ _)) (by decide)
    simp [pyStartsWith, ha]

theorem clean_numeric_value_of_clean_chars (s : String) (v : ℚ)
    (hclean : ∀ c ∈ s.data, isCleanFloatChar c = true)
    (hparse : pyFloat s.data = some v) :
    clean_numeric_value s = some v := by
  have hemp : s ≠ "" := by
    intro e; subst e
    rw [show pyFloat "".data = none from rfl] at hparse
    exact Option.noConfusion hparse
  have hNA : s ≠ "N/A" := by
    intro e; subst e
    exact absurd (hclean 'N' (by decide)) (by decide)
  have hdash : s ≠ "--" := by
    intro e; subst e
    rw [show pyFloat "--".data = none from rfl] at hparse
    exact Option.noConfusion hparse
  have hne : ¬ (s = "" ∨ s ∈ (["N/A", "--", ""] : List String)) := by
    rintro (e | hm)
    · exact hemp e
    · simp [hemp, hNA, hdash] at hm
  have hnospace : ∀ c ∈ s.data, isPySpace c = false :=
    fun c hc => clean_char_not_space (hclean c hc)
  have hstrip : pyStrip s.data = s.data := pyStrip_eq_self hnospace
  have hfilter : s.data.filter (fun c => !removedChar c) = s.data :=
    List.filter_eq_self.mpr
      (fun c hc => by simp [clean_char_not_removed (hclean c hc)])
  have hparen : pyStartsWith s.data '(' = false := startsWith_paren_eq_false hclean
  have hpct : s.data.contains '%' = false := contains_percent_eq_false hclean
  have hcleaned : cleanedOf s = s.data := by
    simp only [cleanedOf, hstrip, hfilter, hparen, Bool.false_and,
      Bool.false_eq_true, if_false]
  rw [clean_numeric_value, if_neg hne]
  simp only [hpct, Bool.false_eq_true, if_false, hcleaned]
  exact hparse

theorem clean_numeric_valueE_ok (v : Option String) :
    clean_numeric_valueE v = .ok (clean_numeric_value? v) := by
  cases v with
  | none => rfl
  | some s =>
    simp only [clean_numeric_valueE, clean_numeric_value?, clean_numeric_value]
    by_cases hmiss : s = "" ∨ s ∈ (["N/A", "--", ""] : List String)
    · rw [if_pos hmiss, if_pos hmiss]
    · rw [if_neg hmiss, if_neg hmiss]
      by_cases hc : s.data.contains '%' = true
      · simp only [hc, if_true]
        cases hA : pyFloat ((cleanedOf s).filter (fun c => c != '%')) <;>
          simp [hA]
      · simp only [hc, if_false]
        cases hA : pyFloat (cleanedOf s) <;> simp [hA]

/-! ## Claim theorems -/

/-- C7: `normalize_numeric` (`clean_numeric_value`) returns absent for each
of `N/A`, `--`, the empty string, a lone space, and `None`; it never raises
(the explicit-exception model always returns `.ok` of the plain result); it
strips separators and signs and treats a parenthesized value as negative,
with `normalize_numeric("(1,234.50)") = -1234.50` and
`normalize_numeric("+3.25%") = 3.25`; and on an already-clean
float-as-string (sign/digit/point characters accepted by plain `float`) it
agrees with the plain conversion, hence is idempotent on its own output. -/
theorem c7_normalize_numeric :
    (clean_numeric_value? none = none ∧ clean_numeric_value "N/A" = none ∧
      clean_numeric_value "--" = none ∧ clean_numeric_value "" = none ∧
      clean_numeric_value " " = none) ∧
    (∀ v, clean_numeric_valueE v = .ok (clean_numeric_value? v)) ∧
    clean_numeric_value "(1,234.50)" = some (-1234.5) ∧
    clean_numeric_value "+3.25%" = some 3.25 ∧
    (∀ s v, (∀ c ∈ s.data, isCleanFloatChar c = true) →
      pyFloat s.data = some v → clean_numeric_value s = some v) := by
  refine ⟨⟨rfl, rfl, rfl, rfl, rfl⟩, clean_numeric_valueE_ok, ?_, ?_,
    clean_numeric_value_of_clean_chars⟩
  · have h : pyFloatParts ['-', '1', '2', '3', '4', '.', '5', '0'] =
        some (true, 1234, 50, 2) := by decide
    show (pyFloatParts ['-', '1', '2', '3', '4', '.', '5', '0']).map partsVal =
      some (-1234.5)
    rw [h]
    norm_num [partsVal]
  · have h : pyFloatParts ['3', '.', '2', '5'] = some (false, 3, 25, 2) := by
      decide
    show (pyFloatParts ['3', '.', '2', '5']).map partsVal = some 3.25
    rw [h]
    norm_num [partsVal]

/-- Witness for C7: the idempotence clause applied to the already-clean
string `"3.25"`. -/
theorem c7_normalize_numeric_witness :
    clean_numeric_value "3.25" = some 3.25 :=
  c7_normalize_numeric.2.2.2.2 "3.25" 3.25 (by decide) (by
    have h : pyFloatParts ['3', '.', '2', '5'] = some (false, 3, 25, 2) := by
      decide
    show (pyFloatParts ['3', '.', '2', '5']).map partsVal = some 3.25
    rw [h]
    norm_num [partsVal])

/-- C6 (code-bug evidence): the candidate `"0.0"` for the ratio-like field
`eps` parses to `0.0`, which lies within `[-1000, 1000]`, yet
`_validate_extracted_value` rejects it: the Python expression
`numeric_value and -1000 <= numeric_value <= 1000` evaluates to the falsy
`0.0`, so the candidate is not accepted. -/
theorem c6_ratio_zero_rejected :
    clean_numeric_value "0.0" = some 0 ∧
    ((-1000 : ℚ) ≤ 0 ∧ (0 : ℚ) ≤ 1000) ∧
    validate_extracted_value "eps" "0.0" = false := by
  have h0 : clean_numeric_value "0.0" = some 0 := by
    have h : pyFloatParts ['0', '.', '0'] = some (false, 0, 0, 1) := by decide
    show (pyFloatParts ['0', '.', '0']).map partsVal = some 0
    rw [h]
    norm_num [partsVal]
  refine ⟨h0, ⟨by norm_num, by norm_num⟩, ?_⟩
  rw [validate_extracted_value, if_neg (by decide), if_neg (by decide),
    if_neg (by decide), if_pos (by decide), h0]
  simp

theorem retryAux_ok {E A : Type} (f : ℕ → Except E A) (a : A) :
    ∀ (n attempt : ℕ), (∀ i < n, ∃ e, f (attempt + i) = .error e) →
      f (attempt + n) = .ok a →
      retryAux f attempt n = ⟨.ok a, n + 1, n⟩ := by
  intro n
  induction n with
  | zero =>
    intro attempt _ hok
    rw [Nat.add_zero] at hok
    simp [retryAux, hok]
  | succ n ih =>
    intro attempt h hok
    obtain ⟨e, he⟩ := h 0 (Nat.succ_pos n)
    rw [Nat.add_zero] at he
    have hrec := ih (attempt + 1)
      (fun i hi => by
        have h' := h (i + 1) (by omega)
        have heq : attempt + (i + 1) = attempt + 1 + i := by omega
        rwa [heq] at h')
      (by
        have heq : attempt + (n + 1) = attempt + 1 + n := by omega
        rwa [heq] at hok)
    simp [retryAux, he, hrec]

theorem retryAux_err {E A : Type} (f : ℕ → Except E A) (e : E) :
    ∀ (n attempt : ℕ), (∀ i < n, ∃ e', f (attempt + i) = .error e') →
      f (attempt + n) = .error e →
      retryAux f attempt n = ⟨.error e, n + 1, n + 1⟩ := by
  intro n
  induction n with
  | zero =>
    intro attempt _ herr
    rw [Nat.add_zero] at herr
    simp [retryAux, herr]
  | succ n ih =>
    intro attempt h herr
    obtain ⟨e', he⟩ := h 0 (Nat.succ_pos n)
    rw [Nat.add_zero] at he
    have hrec := ih (attempt + 1)
      (fun i hi => by
        have h' := h (i + 1) (by omega)
        have heq : attempt + (i + 1) = attempt + 1 + i := by omega
        rwa [heq] at h')
      (by
        have heq : attempt + (n + 1) = attempt + 1 + n := by omega
        rwa [heq] at herr)
    simp [retryAux, he, hrec]

/-- C4: under `retry_with_backoff(max_retries)`, a wrapped function that
fails on attempts `0 .. max_retries - 1` and succeeds on attempt
`max_retries` returns the success value after `max_retries + 1` invocations
with exactly `max_retries` recorded error entries; one that fails on every
one of the `max_retries + 1` attempts re-raises the final exception with
exactly `max_retries + 1` recorded error entries. -/
theorem c4_retry_layer {E A : Type} (maxRetries : ℕ) (f : ℕ → Except E A) :
    (∀ a : A, (∀ i < maxRetries, ∃ e, f i = .error e) →
      f maxRetries = .ok a →
      retry_with_backoff maxRetries f = ⟨.ok a, maxRetries + 1, maxRetries⟩) ∧
    (∀ e : E, (∀ i < maxRetries, ∃ e', f i = .error e') →
      f maxRetries = .error e →
      retry_with_backoff maxRetries f =
        ⟨.error e, maxRetries + 1, maxRetries + 1⟩) := by
  constructor
  · intro a hfail hok
    have h := retryAux_ok f a maxRetries 0 (by simpa using hfail)
      (by simpa using hok)
    simpa [retry_with_backoff] using h
  · intro e hfail herr
    have h := retryAux_err f e maxRetries 0 (by simpa using hfail)
      (by simpa using herr)
    simpa [retry_with_backoff] using h

/-- Witness for C4 with `max_retries = 2`: a function failing twice then
succeeding, and one failing on all three attempts. -/
theorem c4_retry_layer_witness :
    retry_with_backoff 2
        (fun i => if i < 2 then .error i else (.ok 42 : Except ℕ ℕ)) =
      ⟨.ok 42, 3, 2⟩ ∧
    retry_with_backoff 2 (fun i => (.error i : Except ℕ ℕ)) =
      ⟨.error 2, 3, 3⟩ := by
  constructor
  · exact (c4_retry_layer 2 _).1 42
      (fun i hi => ⟨i, by simp [hi]⟩) (by norm_num)
  · exact (c4_retry_layer 2 _).2 2 (fun i _ => ⟨i, rfl⟩) rfl

/-- C1 counterexample: with a document fetch that raises a timeout on every
attempt and `max_retries = 3`, the wrapped fetch is attempted exactly once,
not `max_retries + 1 = 4` times — the body of `scrape_stock_data` catches
the failure internally and returns a failed `ScrapingResult`, so the retry
layer never observes an exception. -/
theorem c1_counterexample :
    (scrape_stock_data 3 (fun _ => (.error () : Except Unit Unit))
      (fun _ => build_stock_data "AAPL" "Apple Inc.")).attempts = 1 ∧
    (scrape_stock_data 3 (fun _ => (.error () : Except Unit Unit))
      (fun _ => build_stock_data "AAPL" "Apple Inc.")).attempts ≠ 3 + 1 := by
  exact ⟨rfl, by decide⟩

/-- C1 (amended): when the document fetch raises on every attempt,
`scrape_stock_data` returns a `ScrapingResult` with `success = False` and
the non-empty error message `"No data extracted"`, and no exception escapes
to the caller; but the fetch is attempted exactly once and no error entry
reaches the retry layer's tracker, because the scraping body absorbs the
fetch failure before the retry wrapper can see it. -/
theorem c1_scrape_timeout_every_attempt {Doc : Type} (maxRetries : ℕ)
    (fetchAt : ℕ → Except Unit Doc) (extractAll : Doc → StockData)
    (h : ∀ n, fetchAt n = .error ()) :
    scrape_stock_data maxRetries fetchAt extractAll =
      ⟨.ok ⟨false, none, some "No data extracted"⟩, 1, 0⟩ ∧
    "No data extracted" ≠ "" := by
  refine ⟨?_, by decide⟩
  have h0 : scrape_stock_data_attempt (fetchAt 0) extractAll =
      .ok ⟨false, none, some "No data extracted"⟩ := by
    rw [h 0]; rfl
  cases maxRetries with
  | zero => simp [scrape_stock_data, retry_with_backoff, retryAux, h0]
  | succ n => simp [scrape_stock_data, retry_with_backoff, retryAux, h0]

/-- Witness for C1's amended statement at `max_retries = 3`. -/
theorem c1_scrape_timeout_witness :
    scrape_stock_data 3 (fun _ => (.error () : Except Unit Unit))
      (fun _ => build_stock_data "MSFT" "Microsoft") =
      ⟨.ok ⟨false, none, some "No data extracted"⟩, 1, 0⟩ :=
  (c1_scrape_timeout_every_attempt 3 _ _ (fun _ => rfl)).1

/-- C5 counterexample: the lowercase symbol `"aapl"` passes
`validate_symbol`, yet the assembled `StockData` has `symbol = "AAPL"`
while `company_info.symbol` stays `"aapl"`, violating
`company_info.symbol == symbol`. -/
theorem c5_counterexample :
    validate_symbol "aapl" = true ∧
    (build_stock_data "aapl" "Apple Inc.").symbol = "AAPL" ∧
    (build_stock_data "aapl" "Apple Inc.").company_info.symbol = "aapl" ∧
    (build_stock_data "aapl" "Apple Inc.").company_info.symbol ≠
      (build_stock_data "aapl" "Apple Inc.").symbol := by
  refine ⟨by decide, by decide, rfl, by decide⟩

/-- C5 (amended): `StockData.symbol` is the validator-uppercased input and
is non-empty whenever the input symbol is non-empty, but
`company_info.symbol` keeps the raw input symbol, so
`company_info.symbol == symbol` holds exactly when the input is already in
its uppercased form. -/
theorem c5_symbol_invariant (s name : String) :
    (build_stock_data s name).symbol = symbol_must_be_uppercase s ∧
    (build_stock_data s name).company_info.symbol = s ∧
    (s ≠ "" → (build_stock_data s name).symbol ≠ "") ∧
    ((build_stock_data s name).company_info.symbol =
        (build_stock_data s name).symbol ↔ s = symbol_must_be_uppercase s) := by
  refine ⟨rfl, rfl, ?_, Iff.rfl⟩
  intro hs
  simp only [build_stock_data, symbol_must_be_uppercase, if_neg hs]
  intro he
  apply hs
  have hdata : s.data.map Char.toUpper = [] := congrArg String.data he
  have hnil : s.data = [] := List.map_eq_nil_iff.mp hdata
  cases s with
  | mk l =>
    cases hnil
    rfl

/-- Witness for C5's amended statement at the lowercase symbol `"aapl"`. -/
theorem c5_symbol_invariant_witness :
    (build_stock_data "aapl" "Apple Inc.").symbol ≠ "" :=
  (c5_symbol_invariant "aapl" "Apple Inc.").2.2.1 (by decide)

theorem extractLoopE_ok (strats : List StratBehavior) (st : ExtractorState) :
    extractLoopE strats st = .ok (extractLoop strats st) := by
  induction strats generalizing st with
  | nil => rfl
  | cons b rest ih =>
    cases hb : b.outcome with
    | error e =>
      simp only [extractLoopE, extractLoop, hb]
      exact ih st
    | ok r =>
      cases hr : truthyRes r
      · simp only [extractLoopE, extractLoop, hb, hr, Bool.false_eq_true,
          if_false]
        exact ih st
      · simp only [extractLoopE, extractLoop, hb, hr, if_true]

theorem extract_with_intelligenceE_ok
    (cached : String → Except Unit (Option String))
    (strats : List StratBehavior) (st : ExtractorState) :
    extract_with_intelligenceE cached strats st =
      .ok (extract_with_intelligence cached strats st) := by
  cases hc : st.cache with
  | none =>
    simp only [extract_with_intelligenceE, extract_with_intelligence, hc]
    exact extractLoopE_ok strats st
  | some sel =>
    cases hcr : cached sel with
    | error e =>
      simp only [extract_with_intelligenceE, extract_with_intelligence, hc, hcr]
      exact extractLoopE_ok strats _
    | ok r =>
      cases hr : truthyRes r
      · simp only [extract_with_intelligenceE, extract_with_intelligence, hc,
          hcr, hr, Bool.false_eq_true, if_false]
        exact extractLoopE_ok strats st
      · simp only [extract_with_intelligenceE, extract_with_intelligence, hc,
          hcr, hr, if_true]

theorem extractLoop_fst_eq_firstTruthy (strats : List StratBehavior)
    (st : ExtractorState) :
    (extractLoop strats st).fst = firstTruthy strats := by
  induction strats generalizing st with
  | nil => rfl
  | cons b rest ih =>
    cases hb : b.outcome with
    | error e =>
      simp only [extractLoop, firstTruthy, hb]
      exact ih st
    | ok r =>
      cases hr : truthyRes r
      · simp only [extractLoop, firstTruthy, hb, hr, Bool.false_eq_true,
          if_false]
        exact ih st
      · simp only [extractLoop, firstTruthy, hb, hr, if_true]

theorem firstTruthy_eq_none_of_all_fail {strats : List StratBehavior}
    (h : ∀ b ∈ strats, ∀ r, b.outcome = .ok r → truthyRes r = false) :
    firstTruthy strats = none := by
  induction strats with
  | nil => rfl
  | cons b rest ih =>
    cases hb : b.outcome with
    | error e =>
      simp only [firstTruthy, hb]
      exact ih (fun b' hb' => h b' (List.mem_cons_of_mem b hb'))
    | ok r =>
      simp only [firstTruthy, hb, h b (List.mem_cons_self b rest) r hb,
        Bool.false_eq_true, if_false]
      exact ih (fun b' hb' => h b' (List.mem_cons_of_mem b hb'))

/-- C2: for every cached-selector behaviour, every combination of strategy
outcomes (including strategies that raise) and every extractor state,
`extract_with_intelligence` never raises — the explicit-exception model
always returns `.ok` of the plain result — and exhausting every strategy
without a truthy candidate yields absent, not an error. -/
theorem c2_extractor_never_raises
    (cached : String → Except Unit (Option String))
    (strats : List StratBehavior) (st : ExtractorState) :
    extract_with_intelligenceE cached strats st =
      .ok (extract_with_intelligence cached strats st) ∧
    ((∀ b ∈ strats, ∀ r, b.outcome = .ok r → truthyRes r = false) →
      (∀ sel r, st.cache = some sel → cached sel = .ok r →
        truthyRes r = false) →
      (extract_with_intelligence cached strats st).fst = none) := by
  refine ⟨extract_with_intelligenceE_ok cached strats st, ?_⟩
  intro hall hcache
  have hnone : firstTruthy strats = none := firstTruthy_eq_none_of_all_fail hall
  cases hc : st.cache with
  | none =>
    simp only [extract_with_intelligence, hc]
    rw [extractLoop_fst_eq_firstTruthy]
    exact hnone
  | some sel =>
    cases hcr : cached sel with
    | error e =>
      simp only [extract_with_intelligence, hc, hcr]
      rw [extractLoop_fst_eq_firstTruthy]
      exact hnone
    | ok r =>
      simp only [extract_with_intelligence, hc, hcr, hcache sel r hc hcr,
        Bool.false_eq_true, if_false]
      rw [extractLoop_fst_eq_firstTruthy]
      exact hnone

/-- Witness for C2: a raising strategy followed by one returning the falsy
empty string, with a cached selector that finds nothing — the extractor
returns absent. -/
theorem c2_extractor_never_raises_witness :
    (extract_with_intelligence (fun _ => .ok none)
      [⟨.error (), none⟩, ⟨.ok (some ""), none⟩]
      ⟨some "sel", none⟩).fst = none :=
  (c2_extractor_never_raises (fun _ => .ok none)
    [⟨.error (), none⟩, ⟨.ok (some ""), none⟩] ⟨some "sel", none⟩).2
    (by
      intro b hb r hr
      simp only [List.mem_cons, List.mem_singleton, List.not_mem_nil] at hb
      rcases hb with hb | hb | hb
      · subst hb; cases hr
      · subst hb; cases hr; rfl
      · exact absurd hb (by simp))
    (by
      intro sel r hsel hr
      cases hsel; cases hr; rfl)

/-- C3 counterexample: the cached selector for the key fails by finding no
element (`_extract_with_selector` returns `None` without raising); the
extractor falls through and returns the value found by the strategy list,
but the stale cache entry survives — it is not evicted. -/
theorem c3_counterexample :
    (extract_with_intelligence (fun _ => .ok none)
      [⟨.ok (some "123.45"), none⟩] ⟨some "stale", none⟩).fst =
        some "123.45" ∧
    (extract_with_intelligence (fun _ => .ok none)
      [⟨.ok (some "123.45"), none⟩] ⟨some "stale", none⟩).snd.cache =
        some "stale" :=
  ⟨rfl, rfl⟩

/-- C3 (amended): when the cached strategy for the key fails by raising,
the cache entry is evicted and control falls through to the full strategy
list; when it fails by returning a falsy value, control also falls through
but the stale entry is retained; in both modes the loop returns the result
of the first strategy that produces a truthy value, so a value is still
returned whenever some strategy in the list would find one. -/
theorem c3_cache_fallthrough (cached : String → Except Unit (Option String))
    (strats : List StratBehavior) (st : ExtractorState) (sel : String)
    (hsel : st.cache = some sel) :
    (cached sel = .error () →
      extract_with_intelligence cached strats st =
        extractLoop strats { st with cache := none }) ∧
    (∀ r, cached sel = .ok r → truthyRes r = false →
      extract_with_intelligence cached strats st = extractLoop strats st) ∧
    (extractLoop strats st).fst = firstTruthy strats := by
  refine ⟨?_, ?_, extractLoop_fst_eq_firstTruthy strats st⟩
  · intro he
    simp only [extract_with_intelligence, hsel, he]
  · intro r hr htr
    simp only [extract_with_intelligence, hsel, hr, htr, Bool.false_eq_true,
      if_false]

/-- Witness for C3's amended statement: a cached selector that raises is
evicted before the loop runs. -/
theorem c3_cache_fallthrough_witness :
    extract_with_intelligence (fun _ => (.error () : Except Unit (Option String)))
      [⟨.ok (some "9.99"), some "sel9"⟩] ⟨some "stale", none⟩ =
      extractLoop [⟨.ok (some "9.99"), some "sel9"⟩] ⟨none, none⟩ :=
  (c3_cache_fallthrough (fun _ => .error ())
    [⟨.ok (some "9.99"), some "sel9"⟩] ⟨some "stale", none⟩ "stale" rfl).1 rfl

theorem on_failure_opens {cb : CircuitBreaker} (t : ℚ)
    (h : cb.failure_threshold ≤ cb.failure_count + 1) :
    (cb.on_failure t).state = .opened ∧
    (cb.on_failure t).failure_count = cb.failure_count + 1 := by
  simp only [CircuitBreaker.on_failure]
  rw [if_pos h]
  exact ⟨rfl, rfl⟩

theorem on_failure_still_closed {cb : CircuitBreaker} (t : ℚ)
    (hst : cb.state = .closed) (h : cb.failure_count + 1 < cb.failure_threshold) :
    (cb.on_failure t).state = .closed ∧
    (cb.on_failure t).failure_count = cb.failure_count + 1 ∧
    (cb.on_failure t).failure_threshold = cb.failure_threshold := by
  simp only [CircuitBreaker.on_failure]
  rw [if_neg (by omega)]
  exact ⟨hst, rfl, rfl⟩

theorem call_closed_fail (cb : CircuitBreaker) (t : ℚ)
    (hst : cb.state = .closed) :
    (cb.call t (.error () : Except Unit Unit)).cb = cb.on_failure t := by
  simp only [CircuitBreaker.call, hst]

theorem failSeq_opens :
    ∀ (times : List ℚ) (cb : CircuitBreaker), cb.state = .closed →
      cb.failure_count + times.length = cb.failure_threshold →
      times ≠ [] →
      (cb.failSeq times).state = .opened ∧
      (cb.failSeq times).failure_count = cb.failure_threshold := by
  intro times
  induction times with
  | nil => intro cb _ _ hne; exact absurd rfl hne
  | cons t rest ih =>
    intro cb hst hcount _
    have hstep : cb.failSeq (t :: rest) =
        CircuitBreaker.failSeq ((cb.call t (.error () : Except Unit Unit)).cb)
          rest := rfl
    have hcb := call_closed_fail cb t hst
    rcases eq_or_ne rest [] with hre | hre
    · subst hre
      have hcnt : cb.failure_count + 1 = cb.failure_threshold := by
        simpa using hcount
      rw [hstep, hcb]
      obtain ⟨h1, h2⟩ := @on_failure_opens cb t (by omega)
      refine ⟨?_, ?_⟩
      · show (cb.on_failure t).state = .opened
        exact h1
      · show (cb.on_failure t).failure_count = cb.failure_threshold
        rw [h2, hcnt]
    · have hlen : rest.length ≠ 0 := fun e => hre (List.length_eq_zero.mp e)
      simp only [List.length_cons] at hcount
      have hlt : cb.failure_count + 1 < cb.failure_threshold := by omega
      obtain ⟨h1, h2, h3⟩ := on_failure_still_closed t hst hlt
      rw [hstep, hcb]
      have hrec := ih (cb.on_failure t) h1 (by omega) hre
      rw [h3] at hrec
      exact hrec

/-- C8: after `failure_threshold` consecutive failures from a fresh closed
breaker the circuit opens; while open, a call before `recovery_timeout` has
elapsed since the last failure raises `Circuit breaker is open` without
invoking the wrapped function and leaves the breaker unchanged; once the
timeout has elapsed one trial call is allowed (half-open) — its success
closes the circuit and resets the failure count, its failure reopens the
circuit. -/
theorem c8_circuit_breaker :
    (∀ (cb : CircuitBreaker) (times : List ℚ), cb.state = .closed →
      cb.failure_count = 0 → times.length = cb.failure_threshold →
      1 ≤ cb.failure_threshold → (cb.failSeq times).state = .opened) ∧
    (∀ (A : Type) (cb : CircuitBreaker) (now t : ℚ) (f : Except Unit A),
      cb.state = .opened → cb.last_failure_time = some t →
      now - t < cb.recovery_timeout →
      cb.call now f = ⟨.error .circuitOpen, cb, false⟩) ∧
    (∀ (A : Type) (cb : CircuitBreaker) (now t : ℚ) (a : A),
      cb.state = .opened → cb.last_failure_time = some t →
      cb.recovery_timeout ≤ now - t →
      (cb.call now (.ok a)).invoked = true ∧
      (cb.call now (.ok a)).result = .ok a ∧
      (cb.call now (.ok a)).cb.state = .closed ∧
      (cb.call now (.ok a)).cb.failure_count = 0) ∧
    (∀ (cb : CircuitBreaker) (now t : ℚ),
      cb.state = .opened → cb.last_failure_time = some t →
      cb.recovery_timeout ≤ now - t →
      cb.failure_threshold ≤ cb.failure_count →
      (cb.call now (.error () : Except Unit Unit)).invoked = true ∧
      (cb.call now (.error () : Except Unit Unit)).cb.state = .opened) := by
  refine ⟨?_, ?_, ?_, ?_⟩
  · intro cb times hst hcnt hlen hthr
    refine (failSeq_opens times cb hst (by omega) ?_).1
    intro e
    subst e
    simp only [List.length_nil] at hlen
    omega
  · intro A cb now t f hst hlast hlt
    simp only [CircuitBreaker.call, hst, CircuitBreaker.should_attempt_reset,
      hlast]
    rw [decide_eq_false (not_le.mpr hlt)]
    simp
  · intro A cb now t a hst hlast hle
    simp only [CircuitBreaker.call, hst, CircuitBreaker.should_attempt_reset,
      hlast, hle, decide_True, if_true, CircuitBreaker.on_success]
    exact ⟨by trivial, by trivial, by trivial, by trivial⟩
  · intro cb now t hst hlast hle hthr
    simp only [CircuitBreaker.call, hst, CircuitBreaker.should_attempt_reset,
      hlast, hle, decide_True, if_true]
    refine ⟨by trivial, ?_⟩
    exact (@on_failure_opens { cb with state := .halfOpen } now
      (show cb.failure_threshold ≤ cb.failure_count + 1 by omega)).1

/-- Witness for C8: a breaker with threshold 2 and timeout 60 opened by two
failures; a call at 29 seconds after the last failure short-circuits; a
trial at 99 seconds closes on success and reopens on failure. -/
theorem c8_circuit_breaker_witness :
    ((CircuitBreaker.init 2 60).failSeq [0, 1]).state = .opened ∧
    ((⟨2, 60, 2, some 1, .opened⟩ : CircuitBreaker).call 30
        (.error () : Except Unit Unit)) =
      ⟨.error .circuitOpen, ⟨2, 60, 2, some 1, .opened⟩, false⟩ ∧
    ((⟨2, 60, 2, some 1, .opened⟩ : CircuitBreaker).call 100
        (.ok 5 : Except Unit ℕ)).cb.state = .closed ∧
    ((⟨2, 60, 2, some 1, .opened⟩ : CircuitBreaker).call 100
        (.error () : Except Unit Unit)).cb.state = .opened := by
  refine ⟨c8_circuit_breaker.1 _ [0, 1] rfl rfl rfl (by decide),
    c8_circuit_breaker.2.1 Unit _ 30 1 _ rfl rfl (by norm_num),
    (c8_circuit_breaker.2.2.1 ℕ _ 100 1 5 rfl rfl (by norm_num)).2.2.1,
    (c8_circuit_breaker.2.2.2 _ 100 1 rfl rfl (by norm_num) (by norm_num)).2⟩

theorem ewmDen_succ (α : ℚ) (n : ℕ) :
    ewmDen α (n + 1) = ewmDen α n * (1 - α) + 1 := by
  unfold ewmDen
  rw [List.range_succ, List.foldl_append]
  rfl

theorem ewmNum_replicate (α c : ℚ) :
    ∀ n, ewmNum α (List.replicate n c) = c * ewmDen α n := by
  intro n
  induction n with
  | zero => simp [ewmNum, ewmDen]
  | succ n ih =>
    unfold ewmNum at ih ⊢
    rw [List.replicate_succ', List.foldl_append, ih, ewmDen_succ]
    simp only [List.foldl_cons, List.foldl_nil]
    ring

theorem ewmDen_nonneg (α : ℚ) (hβ : 0 ≤ 1 - α) : ∀ n, 0 ≤ ewmDen α n := by
  intro n
  induction n with
  | zero => norm_num [ewmDen]
  | succ n ih =>
    rw [ewmDen_succ]
    have := mul_nonneg ih hβ
    linarith

theorem ewmDen_pos (α : ℚ) (hβ : 0 ≤ 1 - α) (n : ℕ) :
    0 < ewmDen α (n + 1) := by
  rw [ewmDen_succ]
  have := mul_nonneg (ewmDen_nonneg α hβ n) hβ
  linarith

theorem ewmAt_replicate (α c : ℚ) (hβ : 0 ≤ 1 - α) (m t : ℕ) (ht : t < m) :
    ewmAt α (List.replicate m c) t = c := by
  unfold ewmAt
  rw [List.take_replicate]
  have hmin : min (t + 1) m = t + 1 := by omega
  rw [hmin, ewmNum_replicate, mul_div_assoc,
    div_self (ne_of_gt (ewmDen_pos α hβ t)), mul_one]

theorem ewm_mean_replicate (span : ℕ) (c : ℚ) (hβ : 0 ≤ 1 - ewmAlpha span)
    (m : ℕ) :
    ewm_mean span (List.replicate m c) = List.replicate m c := by
  unfold ewm_mean
  rw [List.length_replicate]
  refine List.eq_replicate_iff.mpr ⟨by simp, ?_⟩
  intro b hb
  obtain ⟨t, ht, rfl⟩ := List.mem_map.mp hb
  exact ewmAt_replicate _ c hβ m t (List.mem_range.mp ht)

theorem zipWith_sub_replicate (n : ℕ) (a b : ℚ) :
    List.zipWith (· - ·) (List.replicate n a) (List.replicate n b) =
      List.replicate n (a - b) := by
  induction n with
  | zero => rfl
  | succ n ih => simp [List.replicate_succ, ih]

theorem getLast?_replicate_succ (n : ℕ) (a : ℚ) :
    (List.replicate (n + 1) a).getLast? = some a := by
  induction n with
  | zero => rfl
  | succ n ih =>
    rw [List.replicate_succ, List.replicate_succ, List.getLast?_cons_cons,
      ← List.replicate_succ]
    exact ih

theorem ewm_mean_length (span : ℕ) (xs : List ℚ) :
    (ewm_mean span xs).length = xs.length := by
  simp [ewm_mean]

theorem macd_line_length (xs : List ℚ) :
    (macd_line xs).length = xs.length := by
  simp [macd_line, ewm_mean_length]

theorem signal_line_length (xs : List ℚ) :
    (signal_line xs).length = xs.length := by
  simp [signal_line, ewm_mean_length, macd_line_length]

theorem zipWith_sub_getLast? :
    ∀ (a b : List ℚ), a.length = b.length →
      (List.zipWith (· - ·) a b).getLast? =
        Option.map₂ (· - ·) a.getLast? b.getLast? := by
  intro a
  induction a with
  | nil =>
    intro b h
    have hb : b = [] := List.length_eq_zero.mp (by simpa using h.symm)
    subst hb
    rfl
  | cons x xs ih =>
    intro b h
    cases b with
    | nil => simp at h
    | cons y ys =>
      cases xs with
      | nil =>
        cases ys with
        | nil => rfl
        | cons y' ys' => simp at h
      | cons x' xs' =>
        cases ys with
        | nil => simp at h
        | cons y' ys' =>
          have h' : (x' :: xs').length = (y' :: ys').length := by simpa using h
          have hrec := ih (y' :: ys') h'
          simp only [List.zipWith_cons_cons] at hrec ⊢
          rw [List.getLast?_cons_cons, List.getLast?_cons_cons,
            List.getLast?_cons_cons]
          exact hrec

/-- C9: on the null-free close series, SMA(20) over exactly 20
identical-price bars equals that price; RSI(14) is absent for every series
shorter than 15 points; and whenever the MACD, signal and histogram values
are all computed, the histogram equals MACD minus signal. -/
theorem c9_historical_indicators :
    (∀ p : ℚ,
      (calculate_technical_indicators (List.replicate 20 p)).sma_20 = some p) ∧
    (∀ xs : List ℚ, xs.length < 15 →
      (calculate_technical_indicators xs).rsi = none) ∧
    (∀ (xs : List ℚ) (m sg h : ℚ),
      (calculate_technical_indicators xs).macd = some m →
      (calculate_technical_indicators xs).macd_signal = some sg →
      (calculate_technical_indicators xs).macd_histogram = some h →
      h = m - sg) := by
  refine ⟨?_, ?_, ?_⟩
  · intro p
    simp only [calculate_technical_indicators]
    rw [sma_last, if_pos (by simp)]
    have hlast : lastN 20 (List.replicate 20 p) = List.replicate 20 p := by
      simp [lastN]
    rw [hlast, List.sum_replicate, nsmul_eq_mul]
    norm_num
  · intro xs h
    simp only [calculate_technical_indicators]
    rw [calculate_rsi, if_pos (by omega)]
  · intro xs m sg h hm hs hh
    simp only [calculate_technical_indicators] at hm hs hh
    cases hg : macd_guard xs with
    | false =>
      rw [hg] at hm
      simp at hm
    | true =>
      rw [hg] at hm hs hh
      simp only [if_true] at hm hs hh
      have hlen : (macd_line xs).length = (signal_line xs).length := by
        rw [macd_line_length, signal_line_length]
      have hzip := zipWith_sub_getLast? (macd_line xs) (signal_line xs) hlen
      rw [histogram_line] at hh
      rw [hzip, hm, hs] at hh
      simp only [Option.map₂, Option.bind_some, Option.map_some] at hh
      exact (Option.some.injEq _ _ ▸ hh).symm

/-- Witness for C9: SMA over twenty bars at price 7; RSI on a 3-point
series; the MACD relation on a constant 26-point series, where all three
values are computed and equal 0. -/
theorem c9_historical_indicators_witness :
    (calculate_technical_indicators (List.replicate 20 (7 : ℚ))).sma_20 =
      some 7 ∧
    (calculate_technical_indicators ([1, 2, 3] : List ℚ)).rsi = none ∧
    (0 : ℚ) = 0 - 0 := by
  have h12 : ewm_mean 12 (List.replicate 26 (1 : ℚ)) = List.replicate 26 1 :=
    ewm_mean_replicate 12 1 (by norm_num [ewmAlpha]) 26
  have h26 : ewm_mean 26 (List.replicate 26 (1 : ℚ)) = List.replicate 26 1 :=
    ewm_mean_replicate 26 1 (by norm_num [ewmAlpha]) 26
  have hml : macd_line (List.replicate 26 (1 : ℚ)) = List.replicate 26 0 := by
    rw [macd_line, h12, h26, zipWith_sub_replicate]
    norm_num
  have hsl : signal_line (List.replicate 26 (1 : ℚ)) = List.replicate 26 0 := by
    rw [signal_line, hml]
    exact ewm_mean_replicate 9 0 (by norm_num [ewmAlpha]) 26
  have hhl : histogram_line (List.replicate 26 (1 : ℚ)) =
      List.replicate 26 0 := by
    rw [histogram_line, hml, hsl, zipWith_sub_replicate]
    norm_num
  have hlast1 : (List.replicate 26 (1 : ℚ)).getLast? = some 1 :=
    getLast?_replicate_succ 25 1
  have hlast0 : (List.replicate 26 (0 : ℚ)).getLast? = some 0 :=
    getLast?_replicate_succ 25 0
  have hguard : macd_guard (List.replicate 26 (1 : ℚ)) = true := by
    rw [macd_guard, ema_last, ema_last, if_pos (by simp), if_pos (by simp),
      h12, h26, hlast1]
    rfl
  have hm : (calculate_technical_indicators
      (List.replicate 26 (1 : ℚ))).macd = some 0 := by
    simp only [calculate_technical_indicators, hguard, if_true]
    rw [hml]
    exact hlast0
  have hs : (calculate_technical_indicators
      (List.replicate 26 (1 : ℚ))).macd_signal = some 0 := by
    simp only [calculate_technical_indicators, hguard, if_true]
    rw [hsl]
    exact hlast0
  have hh : (calculate_technical_indicators
      (List.replicate 26 (1 : ℚ))).macd_histogram = some 0 := by
    simp only [calculate_technical_indicators, hguard, if_true]
    rw [hhl]
    exact hlast0
  exact ⟨c9_historical_indicators.1 7,
    c9_historical_indicators.2.1 _ (by norm_num),
    c9_historical_indicators.2.2 (List.replicate 26 1) 0 0 0 hm hs hh⟩

/-- C10: an analyzer constructed without an API key (no argument, empty
settings key) is disabled; for every `StockData`, `analyze_stock_data`
returns an `AnalysisResult` tagged `analysis_type = "disabled"` whose
insights are the single explanatory message and whose recommendations are
empty, it never contacts the external AI service, and its result does not
depend on the service's behaviour. -/
theorem c10_analyzer_disabled (settingsKey : String)
    (hkey : settingsKey = "") (sd : StockData)
    (service service' : Except String (List String × List String × Option ℚ)) :
    analyze_stock_data (mkFinancialAnalyzer none settingsKey) sd service =
      (⟨sd.symbol, "disabled",
        ["AI analysis is disabled - OpenAI API key not provided"], [], none⟩,
       false) ∧
    analyze_stock_data (mkFinancialAnalyzer none settingsKey) sd service =
      analyze_stock_data (mkFinancialAnalyzer none settingsKey) sd service' := by
  subst hkey
  exact ⟨rfl, rfl⟩

/-- Witness for C10 at a concrete `StockData` and two services with
different behaviour. -/
theorem c10_analyzer_disabled_witness :
    analyze_stock_data (mkFinancialAnalyzer none "")
        (build_stock_data "AAPL" "Apple Inc.") (.error "quota") =
      (⟨"AAPL", "disabled",
        ["AI analysis is disabled - OpenAI API key not provided"], [], none⟩,
       false) := by
  have h := (c10_analyzer_disabled "" rfl
    (build_stock_data "AAPL" "Apple Inc.") (.error "quota")
    (.ok ([], [], none))).1
  rw [h]
  decide

end YahooFinanceAgent
